import Mathlib

/-!
Shallow embedding of the hera model builder (src/hera/model.py).

The Python class `Model` keeps six mutable collections: three registry
lists (actions, background, consequences) and three dictionaries
(mechanisms, utilities, intentions).  Python dictionaries are embedded as
insertion-ordered association lists with unique keys; Python lists as Lean
lists.  Python exceptions are embedded as an error type, and every mutating
method that can raise returns the state reached at the raise point together
with the error (a Python exception leaves the partially mutated object
alive, which is observable by the caller).

Names are typed as Lean strings, so the `TypeError` branches of the
verification helpers (which only check `isinstance(x, str)`) are
unreachable in the embedding; the `KeyError`, `ValueError` and
`RuntimeError` branches are modelled faithfully.
-/

namespace Hera

/-- Kinds of Python exceptions raised by model.py.  The payload is the
offending name (not the full message text). -/
inductive Err where
  | keyError (name : String)
  | valueError (name : String)
  | typeError (name : String)
  | runtimeError (name : String)
  deriving Repr, DecidableEq

/-- A Python dict with string keys, embedded as an insertion-ordered
association list (keys are unique by construction in all model states). -/
abbrev ListDict (α : Type) := List (String × α)

/-- Python `d[k]` as a total lookup: first entry with the given key. -/
def lookupD {α : Type} : ListDict α → String → Option α
  | [], _ => none
  | (k2, v) :: rest, k => if k2 == k then some v else lookupD rest k

/-- Python `k in d`. -/
def hasKey {α : Type} (d : ListDict α) (k : String) : Bool :=
  d.any (fun kv => kv.1 == k)

/-- Python `d[k] = v`: update in place if the key exists (keeping its
position), otherwise append a new entry at the end. -/
def setD {α : Type} (d : ListDict α) (k : String) (v : α) : ListDict α :=
  if hasKey d k then d.map (fun kv => if kv.1 == k then (k, v) else kv)
  else d ++ [(k, v)]

/-- Python `del d[k]` / `d.pop(k)` on a present key: drop the entry.
With unique keys, filtering is the exact effect. -/
def delD {α : Type} (d : ListDict α) (k : String) : ListDict α :=
  d.filter (fun kv => kv.1 ≠ k)

-- STRING MODIFIERS (model.py lines 529-568) ---------------------------------

/-- A single-quote character, built without a quote literal. -/
def sq : String := (Char.ofNat 39).toString

/-- model.py `Model.__quote_str`: wrap a variable name in single quotes. -/
def quote_str (v : String) : String := sq ++ v ++ sq

/-- model.py `Model.__not_str`: the negated-literal form Not( quoted v ). -/
def not_str (v : String) : String := "Not(" ++ sq ++ v ++ sq ++ ")"

/-- model.py `Model.__conjunct_list`: left-fold a list of literal strings
into nested binary conjunctions.  Empty list gives the empty string, a
singleton gives the literal itself, otherwise
And(And(...And(l1, l2), l3)..., ln). -/
def conjunct_list : List String → String
  | [] => ""
  | s :: rest => rest.foldl (fun curr str => "And(" ++ curr ++ ", " ++ str ++ ")") s

-- Code-point lexicographic order on strings (Python string comparison, as
-- used by list.sort() in Model.__repr__). ----------------------------------

/-- Lexicographic comparison of char lists by code point, the order Python
uses to compare strings. -/
def charListLe : List Char → List Char → Bool
  | [], _ => true
  | _ :: _, [] => false
  | a :: as, b :: bs =>
    if a.toNat < b.toNat then true
    else if b.toNat < a.toNat then false
    else charListLe as bs

/-- Python string comparison `a <= b` (code-point lexicographic). -/
def sle (a b : String) : Bool := charListLe a.data b.data

/-- Python `list.sort()` on a list of strings: stable ascending sort.  For
a total order on strings the sorted output is uniquely determined, so a
structural insertion sort is an exact embedding. -/
def sortStrings (l : List String) : List String :=
  List.insertionSort (fun a b => sle a b = true) l

-- THE MODEL (model.py lines 9-19) -------------------------------------------

/-- The state of a `Model` object: the six mutable collections plus the
description (model.py `Model.__init__`). -/
structure Model where
  description : String
  actions : List String
  background : List String
  consequences : List String
  mechanisms : ListDict (List String)
  utilities : ListDict Int
  intentions : ListDict (List String)
  deriving Repr, DecidableEq

/-- A freshly constructed model (model.py lines 11-19). -/
def Model.init (description : String) : Model :=
  { description := description, actions := [], background := [],
    consequences := [], mechanisms := [], utilities := [], intentions := [] }

-- LIST AND DICTIONARY MODIFIERS (model.py lines 570-639) --------------------

/-- model.py `Model.__append_if_new` (lines 617-627). -/
def append_if_new (item : String) (l : List String) : List String :=
  if l.contains item then l else l ++ [item]

/-- model.py `Model.__remove_item_from_list_dict` (lines 571-581): for every
entry whose list contains the item, remove its first occurrence (Python
`list.remove`). -/
def remove_item_from_list_dict (item : String) (d : ListDict (List String)) :
    ListDict (List String) :=
  d.map (fun kv => (kv.1, kv.2.erase item))

/-- model.py `Model.__rename_key` (lines 629-639): if the old key is
present, `d[new] = d.pop(old)`. -/
def rename_key {α : Type} (oldN newN : String) (d : ListDict α) : ListDict α :=
  match lookupD d oldN with
  | none => d
  | some v => setD (delD d oldN) newN v

/-- model.py `Model.__rename_item_in_list_dict` (lines 583-602).  The
Python loop iterates over `list_dict.items()`, i.e. over (key, value-list)
TUPLES, so the value lists are never touched: for each tuple, position 0
holds the key (a string, comparable with the old name) and position 1 holds
the list (never equal to a string).  When a key equals the old name the
loop attempts tuple item assignment, which raises TypeError; this can only
happen when `rename_keys` is false (or old = new), because renaming the
keys first removes the old key. -/
def rename_item_in_list_dict (oldN newN : String) (d : ListDict (List String))
    (renameKeys : Bool) : ListDict (List String) × Option Err :=
  let d1 := if renameKeys then rename_key oldN newN d else d
  if hasKey d1 oldN then (d1, some (Err.typeError oldN)) else (d1, none)

/-- model.py `Model.__rename_item_in_list` (lines 604-615): replace the
first occurrence (callers guarantee the item is present). -/
def rename_item_in_list (oldN newN : String) (l : List String) : List String :=
  l.replace oldN newN

-- CHECK AND EXPORT (model.py lines 52-96) -----------------------------------

/-- model.py `Model.check` (lines 52-58): walk the consequences in order;
raise RuntimeError naming the first one whose mechanism list is empty.  A
consequence missing from the mechanisms dict would raise KeyError at the
subscript. -/
def Model.check (m : Model) : Option Err :=
  go m.mechanisms m.consequences
where
  go (mechs : ListDict (List String)) : List String → Option Err
    | [] => none
    | c :: rest =>
      match lookupD mechs c with
      | none => some (Err.keyError c)
      | some [] => some (Err.runtimeError c)
      | some (_ :: _) => go mechs rest

/-- The assignment-validation prefix of model.py `Model.export`
(lines 67-82), which is the part that can raise.  The assignment is a dict
from variable names to integer truth values.
Check 1: the key set is a strict subset of actions plus background (missing
keys, KeyError).  Check 2: the key sets differ (extraneous keys, KeyError).
Check 3: the SET of assigned values differs from the two-element set 0, 1
(ValueError). -/
def Model.export_check (m : Model) (assignment : ListDict Int) : Option Err :=
  let ks := assignment.map Prod.fst
  let vars := m.actions ++ m.background
  let subset := ks.all (fun k => vars.contains k)
  let supset := vars.all (fun k => ks.contains k)
  if subset && !supset then some (Err.keyError "missing assignment")
  else if !(subset && supset) then some (Err.keyError "extraneous assignment")
  else
    let vals := assignment.map Prod.snd
    if !(vals.all (fun v => v == 0 || v == 1) && vals.contains 0 && vals.contains 1) then
      some (Err.valueError "assignment values")
    else none

/-- The serialization of one mechanism entry in model.py `Model.__repr__`
(lines 24-27): quote every variable, sort the quoted literals, and fold
them into a conjunction string. -/
def render_mechanism (mech_list : List String) : String :=
  conjunct_list (sortStrings (mech_list.map quote_str))

/-- The mechanisms object of the serialized snapshot (model.py lines 23-27):
each mechanism list rendered as a conjunction expression string. -/
def Model.repr_mechanisms (m : Model) : ListDict String :=
  m.mechanisms.map (fun kv => (kv.1, render_mechanism kv.2))

-- ACTIONS (model.py lines 110-172) ------------------------------------------

/-- One iteration of model.py `Model.add_actions` (lines 117-126). -/
def Model.add_action_one (m : Model) (a : String) : Model :=
  if m.actions.contains a then m
  else { m with actions := m.actions ++ [a], intentions := setD m.intentions a [a] }

/-- model.py `Model.add_actions` (lines 110-126). -/
def Model.add_actions (m : Model) (names : List String) : Model :=
  names.foldl Model.add_action_one m

/-- One iteration of model.py `Model.remove_actions` (lines 137-149):
remove from the registry, delete the intentions entry (`del` raises
KeyError when the key is absent, with the registry already mutated), then
drop the action from every mechanism list. -/
def Model.remove_action_one (m : Model) (a : String) : Model × Option Err :=
  if m.actions.contains a then
    let m1 := { m with actions := m.actions.erase a }
    if hasKey m1.intentions a then
      ({ m1 with intentions := delD m1.intentions a,
                 mechanisms := remove_item_from_list_dict a m1.mechanisms }, none)
    else (m1, some (Err.keyError a))
  else (m, none)

/-- model.py `Model.remove_actions` (lines 128-149): process the names in
order, stopping at the first raise. -/
def Model.remove_actions (m : Model) (names : List String) : Model × Option Err :=
  match names with
  | [] => (m, none)
  | a :: rest =>
    match m.remove_action_one a with
    | (m1, none) => m1.remove_actions rest
    | (m1, some e) => (m1, some e)

/-- model.py `Model.rename_action` (lines 151-172): verify the old name is
registered (KeyError), replace it in the registry, then run the (buggy)
dict renaming over mechanisms (no key renaming) and intentions (with key
renaming). -/
def Model.rename_action (m : Model) (oldN newN : String) : Model × Option Err :=
  if !m.actions.contains oldN then (m, some (Err.keyError oldN))
  else
    let m1 := { m with actions := rename_item_in_list oldN newN m.actions }
    match rename_item_in_list_dict oldN newN m1.mechanisms false with
    | (mechs, some e) => ({ m1 with mechanisms := mechs }, some e)
    | (mechs, none) =>
      let m2 := { m1 with mechanisms := mechs }
      match rename_item_in_list_dict oldN newN m2.intentions true with
      | (ints, e) => ({ m2 with intentions := ints }, e)

-- BACKGROUND (model.py lines 175-228) ----------------------------------------

/-- One iteration of model.py `Model.add_background` (lines 184-189). -/
def Model.add_background_one (m : Model) (b : String) : Model :=
  { m with background := append_if_new b m.background }

/-- model.py `Model.add_background` (lines 175-189). -/
def Model.add_background (m : Model) (names : List String) : Model :=
  names.foldl Model.add_background_one m

/-- One iteration of model.py `Model.remove_background` (lines 200-210). -/
def Model.remove_background_one (m : Model) (b : String) : Model :=
  if m.background.contains b then
    { m with background := m.background.erase b,
             mechanisms := remove_item_from_list_dict b m.mechanisms }
  else m

/-- model.py `Model.remove_background` (lines 191-210). -/
def Model.remove_background (m : Model) (names : List String) : Model :=
  names.foldl Model.remove_background_one m

/-- model.py `Model.rename_background` (lines 212-228): verify, replace in
the registry, then the (buggy) dict renaming over mechanisms without key
renaming. -/
def Model.rename_background (m : Model) (oldN newN : String) : Model × Option Err :=
  if !m.background.contains oldN then (m, some (Err.keyError oldN))
  else
    let m1 := { m with background := rename_item_in_list oldN newN m.background }
    match rename_item_in_list_dict oldN newN m1.mechanisms false with
    | (mechs, e) => ({ m1 with mechanisms := mechs }, e)

-- CONSEQUENCES (model.py lines 231-302) --------------------------------------

/-- One iteration of model.py `Model.add_consequences` (lines 238-245):
append if new, then UNCONDITIONALLY reset the mechanisms entry to the empty
list (the reset is outside the newness check). -/
def Model.add_consequence_one (m : Model) (c : String) : Model :=
  { m with consequences := append_if_new c m.consequences,
           mechanisms := setD m.mechanisms c [] }

/-- model.py `Model.add_consequences` (lines 231-245). -/
def Model.add_consequences (m : Model) (names : List String) : Model :=
  names.foldl Model.add_consequence_one m

/-- One iteration of model.py `Model.remove_consequences` (lines 256-275):
remove from the registry, delete the mechanisms entry, delete both utility
entries (affirmed and negated), and erase the name from every intention
list. -/
def Model.remove_consequence_one (m : Model) (c : String) : Model :=
  if m.consequences.contains c then
    { m with consequences := m.consequences.erase c,
             mechanisms := delD m.mechanisms c,
             utilities := delD (delD m.utilities c) (not_str c),
             intentions := remove_item_from_list_dict c m.intentions }
  else m

/-- model.py `Model.remove_consequences` (lines 247-275). -/
def Model.remove_consequences (m : Model) (names : List String) : Model :=
  names.foldl Model.remove_consequence_one m

/-- model.py `Model.rename_consequence` (lines 277-302): verify, replace in
the registry, rename in mechanisms (with key renaming), rename both utility
keys, then the (buggy) dict renaming over intentions without key
renaming. -/
def Model.rename_consequence (m : Model) (oldN newN : String) : Model × Option Err :=
  if !m.consequences.contains oldN then (m, some (Err.keyError oldN))
  else
    let m1 := { m with consequences := rename_item_in_list oldN newN m.consequences }
    match rename_item_in_list_dict oldN newN m1.mechanisms true with
    | (mechs, some e) => ({ m1 with mechanisms := mechs }, some e)
    | (mechs, none) =>
      let m2 := { m1 with mechanisms := mechs,
                          utilities := rename_key (not_str oldN) (not_str newN)
                            (rename_key oldN newN m1.utilities) }
      match rename_item_in_list_dict oldN newN m2.intentions false with
      | (ints, e) => ({ m2 with intentions := ints }, e)

-- MECHANISMS (model.py lines 305-336) ----------------------------------------

/-- The per-variable body of model.py `Model.add_mechanisms`
(lines 315-320): verify the variable is registered somewhere (KeyError
otherwise), then append it to the mechanism list of the consequence if
new. -/
def Model.add_mechanism_one (m : Model) (c v : String) : Model × Option Err :=
  if !(m.actions ++ m.consequences ++ m.background).contains v then
    (m, some (Err.keyError v))
  else
    match lookupD m.mechanisms c with
    | none => (m, some (Err.keyError c))
    | some l => ({ m with mechanisms := setD m.mechanisms c (append_if_new v l) }, none)

/-- model.py `Model.add_mechanisms` (lines 305-320): verify the consequence
is registered, then process the variables in order, stopping at the first
raise. -/
def Model.add_mechanisms (m : Model) (c : String) (vs : List String) : Model × Option Err :=
  if !m.consequences.contains c then (m, some (Err.keyError c))
  else go m vs
where
  go (m : Model) : List String → Model × Option Err
    | [] => (m, none)
    | v :: rest =>
      match m.add_mechanism_one c v with
      | (m1, none) => go m1 rest
      | (m1, some e) => (m1, some e)

/-- model.py `Model.remove_mechanisms` (lines 322-336): verify the
consequence is registered, then erase each variable from its mechanism
list. -/
def Model.remove_mechanisms (m : Model) (c : String) (vs : List String) : Model × Option Err :=
  if !m.consequences.contains c then (m, some (Err.keyError c))
  else go m vs
where
  go (m : Model) : List String → Model × Option Err
    | [] => (m, none)
    | v :: rest =>
      match lookupD m.mechanisms c with
      | none => (m, some (Err.keyError c))
      | some l => go { m with mechanisms := setD m.mechanisms c (l.erase v) } rest

-- UTILITIES (model.py lines 339-380) -----------------------------------------

/-- model.py `Model.set_utility` (lines 339-359): verify the consequence is
registered (KeyError), pick the affirmed or negated key, and overwrite. -/
def Model.set_utility (m : Model) (c : String) (value : Int) (affirmation : Bool) :
    Model × Option Err :=
  if !m.consequences.contains c then (m, some (Err.keyError c))
  else
    let key := if affirmation then c else not_str c
    ({ m with utilities := setD m.utilities key value }, none)

/-- model.py `Model.remove_utility` (lines 361-380): delete the affirmed or
negated key if present; never raises on string input. -/
def Model.remove_utility (m : Model) (c : String) (affirmation : Bool) : Model :=
  let key := if affirmation then c else not_str c
  if hasKey m.utilities key then { m with utilities := delD m.utilities key } else m

-- INTENTIONS (model.py lines 383-414) ----------------------------------------

/-- The per-consequence body of model.py `Model.add_intentions`
(lines 392-397). -/
def Model.add_intention_one (m : Model) (a c : String) : Model × Option Err :=
  if !m.consequences.contains c then (m, some (Err.keyError c))
  else
    match lookupD m.intentions a with
    | none => (m, some (Err.keyError a))
    | some l => ({ m with intentions := setD m.intentions a (append_if_new c l) }, none)

/-- model.py `Model.add_intentions` (lines 383-397). -/
def Model.add_intentions (m : Model) (a : String) (cs : List String) : Model × Option Err :=
  if !m.actions.contains a then (m, some (Err.keyError a))
  else go m cs
where
  go (m : Model) : List String → Model × Option Err
    | [] => (m, none)
    | c :: rest =>
      match m.add_intention_one a c with
      | (m1, none) => go m1 rest
      | (m1, some e) => (m1, some e)

/-- The per-consequence body of model.py `Model.remove_intentions`
(lines 410-414): verify the consequence is registered, then erase it from
the intention list of the action. -/
def Model.remove_intention_one (m : Model) (a c : String) : Model × Option Err :=
  if !m.consequences.contains c then (m, some (Err.keyError c))
  else
    match lookupD m.intentions a with
    | none => (m, some (Err.keyError a))
    | some l => ({ m with intentions := setD m.intentions a (l.erase c) }, none)

/-- model.py `Model.remove_intentions` (lines 399-414). -/
def Model.remove_intentions (m : Model) (a : String) (cs : List String) : Model × Option Err :=
  if !m.actions.contains a then (m, some (Err.keyError a))
  else go m cs
where
  go (m : Model) : List String → Model × Option Err
    | [] => (m, none)
    | c :: rest =>
      match m.remove_intention_one a c with
      | (m1, none) => go m1 rest
      | (m1, some e) => (m1, some e)

-- DESCRIPTION AND RESET (model.py lines 43-50, 99-107) ------------------------

/-- model.py `Model.set_description` (lines 99-107). -/
def Model.set_description (m : Model) (d : String) : Model :=
  { m with description := d }

/-- model.py `Model.reset` (lines 43-50): clear every list and dict
attribute, keeping the description. -/
def Model.reset (m : Model) : Model :=
  { m with actions := [], background := [], consequences := [],
           mechanisms := [], utilities := [], intentions := [] }

-- OPERATION SEQUENCES ---------------------------------------------------------

/-- A public mutating call on the model, excluding the three rename
methods.  Used to quantify over call sequences. -/
inductive Op where
  | addActions (names : List String)
  | removeActions (names : List String)
  | addBackground (names : List String)
  | removeBackground (names : List String)
  | addConsequences (names : List String)
  | removeConsequences (names : List String)
  | addMechanisms (c : String) (vs : List String)
  | removeMechanisms (c : String) (vs : List String)
  | setUtility (c : String) (v : Int) (aff : Bool)
  | removeUtility (c : String) (aff : Bool)
  | addIntentions (a : String) (cs : List String)
  | removeIntentions (a : String) (cs : List String)
  | setDescription (d : String)
  | reset

/-- The state after one public call.  A raising call leaves the object in
the state it had reached at the raise point, exactly as in Python, so the
error component is dropped and the state kept. -/
def Op.apply (m : Model) : Op → Model
  | .addActions ns => m.add_actions ns
  | .removeActions ns => (m.remove_actions ns).1
  | .addBackground ns => m.add_background ns
  | .removeBackground ns => m.remove_background ns
  | .addConsequences ns => m.add_consequences ns
  | .removeConsequences ns => m.remove_consequences ns
  | .addMechanisms c vs => (m.add_mechanisms c vs).1
  | .removeMechanisms c vs => (m.remove_mechanisms c vs).1
  | .setUtility c v aff => (m.set_utility c v aff).1
  | .removeUtility c aff => m.remove_utility c aff
  | .addIntentions a cs => (m.add_intentions a cs).1
  | .removeIntentions a cs => (m.remove_intentions a cs).1
  | .setDescription d => m.set_description d
  | .reset => m.reset

/-- The state after a sequence of public calls. -/
def Model.run (m : Model) (ops : List Op) : Model :=
  ops.foldl Op.apply m

/-- The three registry lists contain no duplicate names. -/
def RegistryNodup (m : Model) : Prop :=
  m.actions.Nodup ∧ m.background.Nodup ∧ m.consequences.Nodup

/-- Two model states with identical registry lists. -/
def SameRegistries (m1 m2 : Model) : Prop :=
  m1.actions = m2.actions ∧ m1.background = m2.background ∧ m1.consequences = m2.consequences

-- FIXTURES --------------------------------------------------------------------

/-- The model from tests.py `TestModel.setUp` (tests.py lines 5-35). -/
def testModel : Model :=
  { description := "Test",
    actions := ["A1", "A2", "A3"],
    background := ["B1"],
    consequences := ["C1", "C2", "C3", "C4"],
    mechanisms := [("C1", ["B1", "A1"]), ("C2", ["A1"]), ("C3", ["B1", "A2"]), ("C4", ["A2"])],
    utilities := [("C1", 10), ("C2", -4), ("C3", 10), ("C4", -4),
                  (not_str "C1", -10), (not_str "C2", 4), (not_str "C3", -10), (not_str "C4", 4)],
    intentions := [("A1", ["A1", "C1"]), ("A2", ["A2", "C3"]), ("A3", ["A3"])] }

/-- The example scenario of the spec, built through the public interface:
action A1, consequence C1, mechanism C1 from A1, utilities 10 for C1 and
-10 for the negated literal. -/
def exampleModel : Model :=
  (((((Model.init "ex").add_actions ["A1"]).add_consequences
      ["C1"]).add_mechanisms "C1" ["A1"]).1.set_utility "C1" 10 true).1.set_utility "C1" (-10)
    false |>.1

/-- A model in which the name X is registered both as an action and as a
consequence, reached through the public interface. -/
def crossModel : Model :=
  ((Model.init "d").add_actions ["X"]).add_consequences ["X"]

-- HELPER LEMMAS ---------------------------------------------------------------

theorem charListLe_total : ∀ as bs, charListLe as bs = true ∨ charListLe bs as = true := by
  intro as
  induction as with
  | nil => intro bs; left; rfl
  | cons a as ih =>
    intro bs
    cases bs with
    | nil => right; rfl
    | cons b bs =>
      by_cases hab : a.toNat < b.toNat
      · left; simp [charListLe, hab]
      · by_cases hba : b.toNat < a.toNat
        · right; simp [charListLe, hba]
        · rcases ih bs with h | h
          · left; simpa [charListLe, hab, hba] using h
          · right; simpa [charListLe, hab, hba] using h

theorem charListLe_trans : ∀ as bs cs, charListLe as bs = true → charListLe bs cs = true →
    charListLe as cs = true := by
  intro as
  induction as with
  | nil => intro bs cs _ _; rfl
  | cons a as ih =>
    intro bs cs h1 h2
    cases bs with
    | nil => simp [charListLe] at h1
    | cons b bs =>
      cases cs with
      | nil => simp [charListLe] at h2
      | cons c cs =>
        simp only [charListLe] at h1 h2 ⊢
        by_cases hab : a.toNat < b.toNat
        · by_cases hbc : b.toNat < c.toNat
          · simp [show a.toNat < c.toNat by omega]
          · by_cases hcb : c.toNat < b.toNat
            · simp [hbc, hcb] at h2
            · simp [show a.toNat < c.toNat by omega]
        · by_cases hba : b.toNat < a.toNat
          · simp [hab, hba] at h1
          · by_cases hbc : b.toNat < c.toNat
            · simp [show a.toNat < c.toNat by omega]
            · by_cases hcb : c.toNat < b.toNat
              · simp [hbc, hcb] at h2
              · have hac : ¬ a.toNat < c.toNat := by omega
                have hca : ¬ c.toNat < a.toNat := by omega
                simp [hab, hba] at h1
                simp [hbc, hcb] at h2
                simp [hac, hca]
                exact ih bs cs h1 h2

theorem charListLe_antisymm : ∀ as bs, charListLe as bs = true → charListLe bs as = true →
    as = bs := by
  intro as
  induction as with
  | nil =>
    intro bs _ h2
    cases bs with
    | nil => rfl
    | cons b bs => simp [charListLe] at h2
  | cons a as ih =>
    intro bs h1 h2
    cases bs with
    | nil => simp [charListLe] at h1
    | cons b bs =>
      simp only [charListLe] at h1 h2
      by_cases hab : a.toNat < b.toNat
      · have hba : ¬ b.toNat < a.toNat := by omega
        simp [hba, hab] at h2
      · by_cases hba : b.toNat < a.toNat
        · simp [hab, hba] at h1
        · have heq : a.toNat = b.toNat := by omega
          have hcc : a = b := Char.ext (UInt32.ext heq)
          simp [hab, hba] at h1 h2
          rw [hcc, ih bs h1 h2]

instance : IsTotal String (fun a b => sle a b = true) :=
  ⟨fun a b => charListLe_total a.data b.data⟩

instance : IsTrans String (fun a b => sle a b = true) :=
  ⟨fun a b c => charListLe_trans a.data b.data c.data⟩

instance : IsAntisymm String (fun a b => sle a b = true) :=
  ⟨fun a b h1 h2 => String.ext (charListLe_antisymm a.data b.data h1 h2)⟩

/-- Sorting is invariant under permutation of the input: two lists with the
same elements sort to the same list. -/
theorem sortStrings_perm_eq {l₁ l₂ : List String} (h : l₁.Perm l₂) :
    sortStrings l₁ = sortStrings l₂ :=
  List.eq_of_perm_of_sorted
    (((List.perm_insertionSort _ l₁).trans h).trans (List.perm_insertionSort _ l₂).symm)
    (List.sorted_insertionSort _ l₁) (List.sorted_insertionSort _ l₂)

theorem lookupD_delD_self {α : Type} (d : ListDict α) (k : String) :
    lookupD (delD d k) k = none := by
  induction d with
  | nil => rfl
  | cons kv rest ih =>
    by_cases h : kv.1 = k
    · simpa [delD, h] using ih
    · simpa [delD, lookupD, h] using ih

theorem lookupD_delD_ne {α : Type} (d : ListDict α) {k k2 : String} (h : k2 ≠ k) :
    lookupD (delD d k) k2 = lookupD d k2 := by
  induction d with
  | nil => rfl
  | cons kv rest ih =>
    rcases kv with ⟨k1, v⟩
    by_cases hk : k1 = k
    · have h1 : delD ((k1, v) :: rest) k = delD rest k := by
        simp [delD, List.filter_cons, hk]
      have hne : (k1 == k2) = false := by
        rw [beq_eq_false_iff_ne, hk]
        exact fun he => h he.symm
      have h2 : lookupD ((k1, v) :: rest) k2 = lookupD rest k2 := by
        simp [lookupD, hne]
      rw [h1, h2, ih]
    · have h1 : delD ((k1, v) :: rest) k = (k1, v) :: delD rest k := by
        simp [delD, List.filter_cons, hk]
      by_cases hk2 : k1 = k2
      · have hb : (k1 == k2) = true := by simp [hk2]
        rw [h1]
        simp [lookupD, hb]
      · have hb : (k1 == k2) = false := by simp [hk2]
        rw [h1]
        simp [lookupD, hb, ih]

theorem erase_eq_filter_ne {l : List String} (h : l.Nodup) (a : String) :
    l.erase a = l.filter (fun x => x ≠ a) := by
  rw [List.Nodup.erase_eq_filter h a]
  simp only [ne_eq, decide_not]
  rfl

theorem remove_item_eq_filter (v : String) (d : ListDict (List String))
    (hnd : ∀ p ∈ d, (Prod.snd p).Nodup) :
    remove_item_from_list_dict v d
      = d.map (fun p => (p.1, p.2.filter (fun x => x ≠ v))) := by
  unfold remove_item_from_list_dict
  apply List.map_congr_left
  intro p hp
  rw [erase_eq_filter_ne (hnd p hp) v]

theorem foldl_preserve {α β : Type} {P : α → Prop} {f : α → β → α}
    (hf : ∀ a b, P a → P (f a b)) : ∀ (l : List β) (a : α), P a → P (l.foldl f a) := by
  intro l
  induction l with
  | nil => intro a h; exact h
  | cons b rest ih => intro a h; exact ih (f a b) (hf a b h)

theorem append_if_new_nodup {l : List String} (h : l.Nodup) (x : String) :
    (append_if_new x l).Nodup := by
  unfold append_if_new
  by_cases hx : x ∈ l
  · simpa [hx] using h
  · simp [hx, List.nodup_append, h]

-- CLAIM THEOREMS --------------------------------------------------------------

/-- C1: on the example model of the spec (action A1, consequence C1,
mechanism C1 from A1, utilities 10 and -10), the assignment mapping A1 to 1
has its key set equal to the registered actions plus background and every
value in the set 0, 1, yet export raises a ValueError, because the code
compares the SET of assigned values against the two-element set 0, 1
instead of checking membership.  The spec example call therefore fails. -/
theorem export_rejects_spec_example_assignment :
    exampleModel.actions = ["A1"] ∧ exampleModel.background = [] ∧
    lookupD exampleModel.mechanisms "C1" = some ["A1"] ∧
    exampleModel.utilities = [("C1", 10), (not_str "C1", -10)] ∧
    exampleModel.export_check [("A1", 1)] = some (Err.valueError "assignment values") := by
  decide

/-- C2: renaming action A1 to the already registered name A2 on the test
fixture raises nothing and mutates the model: the actions registry ends up
with A2 twice and the intentions entry of the old A2 is overwritten.  The
code contradicts its own test, which expects a ValueError and no
mutation. -/
theorem rename_action_to_existing_name_mutates_without_error :
    (testModel.rename_action "A1" "A2").2 = none ∧
    (testModel.rename_action "A1" "A2").1.actions = ["A2", "A2", "A3"] ∧
    (testModel.rename_action "A1" "A2").1.intentions
      = [("A2", ["A1", "C1"]), ("A3", ["A3"])] := by
  decide

/-- C3: after the successful rename of action A1 to the fresh name A4 on
the test fixture, the occurrence of A1 inside the mechanism list of C1 and
inside the intention list are NOT replaced (the buggy helper iterates over
dict items tuples and never touches the value lists); likewise renaming
consequence C1 to C5 leaves C1 in the intention list of A1.  The code
contradicts its own tests, which expect the values renamed. -/
theorem rename_leaves_stale_names_in_table_values :
    (testModel.rename_action "A1" "A4").2 = none ∧
    (testModel.rename_action "A1" "A4").1.actions = ["A4", "A2", "A3"] ∧
    lookupD (testModel.rename_action "A1" "A4").1.mechanisms "C1" = some ["B1", "A1"] ∧
    lookupD (testModel.rename_action "A1" "A4").1.intentions "A4" = some ["A1", "C1"] ∧
    (testModel.rename_consequence "C1" "C5").2 = none ∧
    lookupD (testModel.rename_consequence "C1" "C5").1.intentions "A1"
      = some ["A1", "C1"] := by
  decide

/-- C4: adding the already registered consequence C1 to the test fixture
leaves the registry unchanged but silently RESETS the mechanism entry of
C1 from its current list to the empty list, so duplicate add calls do not
leave the model state unchanged.  The reset sits outside the newness
check, unlike the parallel guard in add_actions. -/
theorem add_existing_consequence_resets_mechanism :
    testModel.consequences = ["C1", "C2", "C3", "C4"] ∧
    lookupD testModel.mechanisms "C1" = some ["B1", "A1"] ∧
    (testModel.add_consequences ["C1"]).consequences = ["C1", "C2", "C3", "C4"] ∧
    lookupD (testModel.add_consequences ["C1"]).mechanisms "C1" = some [] := by
  decide

/-- C8: the mechanism serializer maps the empty list to the empty string
and a singleton to its quoted literal, renders a two-element list as a
binary conjunction of the sorted quoted literals, satisfies the left-fold
unfolding And( accumulator , next ) for longer lists, and is invariant
under permutation of the input list. -/
theorem render_mechanism_spec :
    render_mechanism [] = "" ∧
    (∀ a : String, render_mechanism [a] = quote_str a) ∧
    render_mechanism ["A", "B"] = "And(" ++ quote_str "A" ++ ", " ++ quote_str "B" ++ ")" ∧
    render_mechanism ["B", "A"] = "And(" ++ quote_str "A" ++ ", " ++ quote_str "B" ++ ")" ∧
    (∀ (l : List String) (s : String), l ≠ [] →
      conjunct_list (l ++ [s]) = "And(" ++ conjunct_list l ++ ", " ++ s ++ ")") ∧
    (∀ l₁ l₂ : List String, l₁.Perm l₂ → render_mechanism l₁ = render_mechanism l₂) := by
  refine ⟨rfl, fun a => rfl, by decide, by decide, ?_, ?_⟩
  · intro l s hl
    cases l with
    | nil => exact absurd rfl hl
    | cons a rest => simp [conjunct_list, List.foldl_append]
  · intro l₁ l₂ h
    unfold render_mechanism
    rw [sortStrings_perm_eq (h.map quote_str)]

/-- Witness for C8 at concrete inputs: order independence on a two-element
list and the fold unfolding on a three-element list. -/
theorem render_mechanism_spec_witness :
    render_mechanism ["B", "A"] = render_mechanism ["A", "B"] ∧
    conjunct_list [quote_str "A", quote_str "B", quote_str "C"]
      = "And(" ++ conjunct_list [quote_str "A", quote_str "B"] ++ ", " ++ quote_str "C" ++ ")" := by
  constructor
  · exact render_mechanism_spec.2.2.2.2.2 ["B", "A"] ["A", "B"] (List.Perm.swap "A" "B" [])
  · exact render_mechanism_spec.2.2.2.2.1 [quote_str "A", quote_str "B"] (quote_str "C")
      (by simp)

theorem check_go_spec (mechs : ListDict (List String)) :
    ∀ cs : List String, (∀ c ∈ cs, (lookupD mechs c).isSome) →
      ((Model.check.go mechs cs = none ↔ ∀ c ∈ cs, lookupD mechs c ≠ some []) ∧
       (∀ e, Model.check.go mechs cs = some e →
          ∃ c ∈ cs, lookupD mechs c = some [] ∧ e = Err.runtimeError c)) := by
  intro cs
  induction cs with
  | nil =>
    intro _
    exact ⟨by simp [Model.check.go], by simp [Model.check.go]⟩
  | cons c rest ih =>
    intro hk
    have hc : (lookupD mechs c).isSome := hk c (List.mem_cons_self c rest)
    obtain ⟨l, hl⟩ := Option.isSome_iff_exists.mp hc
    have hrest := ih (fun x hx => hk x (List.mem_cons_of_mem c hx))
    cases l with
    | nil =>
      constructor
      · constructor
        · intro h
          simp [Model.check.go, hl] at h
        · intro h
          exact absurd hl (h c (List.mem_cons_self c rest))
      · intro e he
        simp only [Model.check.go, hl] at he
        exact ⟨c, List.mem_cons_self c rest, hl, by
          cases he; rfl⟩
    | cons x xs =>
      have hgo : Model.check.go mechs (c :: rest) = Model.check.go mechs rest := by
        simp [Model.check.go, hl]
      constructor
      · rw [hgo, hrest.1]
        constructor
        · intro h y hy
          rcases List.mem_cons.mp hy with rfl | hy2
          · rw [hl]; simp
          · exact h y hy2
        · intro h y hy
          exact h y (List.mem_cons_of_mem c hy)
      · intro e he
        rw [hgo] at he
        obtain ⟨y, hy, hly, hey⟩ := hrest.2 e he
        exact ⟨y, List.mem_cons_of_mem c hy, hly, hey⟩

/-- C9: on a model in which every registered consequence has a mechanisms
entry, check returns without error exactly when no consequence has an
empty mechanism list, and any raised error is a RuntimeError naming a
registered consequence whose mechanism list is empty.  The check is a pure
read in the embedding, so it mutates nothing. -/
theorem check_raises_iff_empty_mechanism (m : Model)
    (hk : ∀ c ∈ m.consequences, (lookupD m.mechanisms c).isSome) :
    (m.check = none ↔ ∀ c ∈ m.consequences, lookupD m.mechanisms c ≠ some []) ∧
    (∀ e, m.check = some e →
      ∃ c ∈ m.consequences, lookupD m.mechanisms c = some [] ∧ e = Err.runtimeError c) :=
  check_go_spec m.mechanisms m.consequences hk

/-- Witness for C9: the test fixture passes check; a model whose only
consequence has an empty mechanism list fails it. -/
theorem check_raises_iff_empty_mechanism_witness :
    testModel.check = none ∧ crossModel.check = some (Err.runtimeError "X") := by
  constructor
  · exact (check_raises_iff_empty_mechanism testModel (by decide)).1.mpr (by decide)
  · decide

theorem not_str_ne_self (c : String) : c ≠ not_str c := by
  intro h
  have hlen := congrArg String.length h
  have hq : sq.length = 1 := rfl
  simp only [not_str, String.length_append, hq] at hlen
  have h4 : ("Not(" : String).length = 4 := rfl
  have h1 : (")" : String).length = 1 := rfl
  rw [h4, h1] at hlen
  omega

/-- C6: removing a registered consequence C deletes exactly its mechanisms
entry, its two utility entries (affirmed and negated), and every
occurrence of C in the intention value lists (the lists being
duplicate-free), while leaving the action and background registries, all
other mechanisms entries, all other utility entries and the intention keys
unchanged. -/
theorem remove_consequence_cascade_effect (m : Model) (c : String)
    (hc : c ∈ m.consequences)
    (hnd : ∀ p ∈ m.intentions, (Prod.snd p).Nodup) :
    (m.remove_consequences [c]).actions = m.actions ∧
    (m.remove_consequences [c]).background = m.background ∧
    (m.remove_consequences [c]).consequences = m.consequences.erase c ∧
    lookupD (m.remove_consequences [c]).mechanisms c = none ∧
    (∀ k, k ≠ c → lookupD (m.remove_consequences [c]).mechanisms k = lookupD m.mechanisms k) ∧
    lookupD (m.remove_consequences [c]).utilities c = none ∧
    lookupD (m.remove_consequences [c]).utilities (not_str c) = none ∧
    (∀ k, k ≠ c → k ≠ not_str c →
      lookupD (m.remove_consequences [c]).utilities k = lookupD m.utilities k) ∧
    (m.remove_consequences [c]).intentions
      = m.intentions.map (fun p => (p.1, p.2.filter (fun x => x ≠ c))) := by
  have hstep : m.remove_consequences [c] = m.remove_consequence_one c := rfl
  rw [hstep]
  unfold Model.remove_consequence_one
  rw [if_pos (by simpa using hc)]
  refine ⟨rfl, rfl, rfl, ?_, ?_, ?_, ?_, ?_, ?_⟩
  · exact lookupD_delD_self m.mechanisms c
  · intro k hk
    exact lookupD_delD_ne m.mechanisms hk
  · rw [lookupD_delD_ne _ (not_str_ne_self c)]
    exact lookupD_delD_self m.utilities c
  · exact lookupD_delD_self (delD m.utilities c) (not_str c)
  · intro k hk hkn
    rw [lookupD_delD_ne _ hkn, lookupD_delD_ne _ hk]
  · exact remove_item_eq_filter c m.intentions hnd

/-- Witness for C6 on the test fixture, removing consequence C1 (the
expected values are the ones asserted by tests.py). -/
theorem remove_consequence_cascade_effect_witness :
    (testModel.remove_consequences ["C1"]).consequences = ["C2", "C3", "C4"] ∧
    lookupD (testModel.remove_consequences ["C1"]).mechanisms "C1" = none ∧
    lookupD (testModel.remove_consequences ["C1"]).utilities (not_str "C1") = none ∧
    (testModel.remove_consequences ["C1"]).intentions
      = [("A1", ["A1"]), ("A2", ["A2", "C3"]), ("A3", ["A3"])] := by
  have h := remove_consequence_cascade_effect testModel "C1" (by decide) (by decide)
  refine ⟨by rw [h.2.2.1]; rfl, h.2.2.2.1, h.2.2.2.2.2.2.1, by rw [h.2.2.2.2.2.2.2.2]; rfl⟩

theorem remove_item_effect (v : String) (d : ListDict (List String))
    (hnd : ∀ p ∈ d, (Prod.snd p).Nodup) :
    remove_item_from_list_dict v d = d.map (fun p => (p.1, p.2.filter (fun x => x ≠ v))) ∧
    (remove_item_from_list_dict v d).map Prod.fst = d.map Prod.fst ∧
    ∀ p ∈ d, v ∉ p.2 → p ∈ remove_item_from_list_dict v d := by
  refine ⟨remove_item_eq_filter v d hnd, ?_, ?_⟩
  · unfold remove_item_from_list_dict
    rw [List.map_map]
    rfl
  · intro p hp hv
    unfold remove_item_from_list_dict
    have : (p.1, p.2.erase v) = p := by
      rw [List.erase_of_not_mem hv]

    exact this ▸ List.mem_map_of_mem _ hp

/-- C7: removing a registered action (with its intentions entry present,
the normal case) or a registered background condition rewrites every
mechanism list to the same list with the occurrences of the removed
variable filtered out: entries not containing the variable are untouched,
the set of mechanism keys is preserved, and no entry is deleted or
cleared. -/
theorem remove_variable_mechanism_effect (m : Model) (v : String)
    (hnd : ∀ p ∈ m.mechanisms, (Prod.snd p).Nodup) :
    (v ∈ m.actions → hasKey m.intentions v = true →
      ((m.remove_actions [v]).1.mechanisms
          = m.mechanisms.map (fun p => (p.1, p.2.filter (fun x => x ≠ v))) ∧
       (m.remove_actions [v]).1.mechanisms.map Prod.fst = m.mechanisms.map Prod.fst ∧
       ∀ p ∈ m.mechanisms, v ∉ p.2 → p ∈ (m.remove_actions [v]).1.mechanisms)) ∧
    (v ∈ m.background →
      ((m.remove_background [v]).mechanisms
          = m.mechanisms.map (fun p => (p.1, p.2.filter (fun x => x ≠ v))) ∧
       (m.remove_background [v]).mechanisms.map Prod.fst = m.mechanisms.map Prod.fst ∧
       ∀ p ∈ m.mechanisms, v ∉ p.2 → p ∈ (m.remove_background [v]).mechanisms)) := by
  constructor
  · intro hv hkey
    have heq : (m.remove_actions [v]).1.mechanisms = remove_item_from_list_dict v m.mechanisms := by
      unfold Model.remove_actions Model.remove_action_one
      rw [if_pos (by simpa using hv)]
      rw [if_pos hkey]
      rfl
    rw [heq]
    exact remove_item_effect v m.mechanisms hnd
  · intro hv
    have heq : (m.remove_background [v]).mechanisms
        = remove_item_from_list_dict v m.mechanisms := by
      have hstep : m.remove_background [v] = m.remove_background_one v := rfl
      rw [hstep]
      unfold Model.remove_background_one
      rw [if_pos (by simpa using hv)]
    rw [heq]
    exact remove_item_effect v m.mechanisms hnd

/-- Witness for C7 on the test fixture: removing action A1 and removing
background B1 (the expected values are the ones asserted by tests.py). -/
theorem remove_variable_mechanism_effect_witness :
    (testModel.remove_actions ["A1"]).1.mechanisms
      = [("C1", ["B1"]), ("C2", []), ("C3", ["B1", "A2"]), ("C4", ["A2"])] ∧
    (testModel.remove_background ["B1"]).mechanisms
      = [("C1", ["A1"]), ("C2", ["A1"]), ("C3", ["A2"]), ("C4", ["A2"])] := by
  have ha := remove_variable_mechanism_effect testModel "A1" (by decide)
  have hb := remove_variable_mechanism_effect testModel "B1" (by decide)
  constructor
  · rw [(ha.1 (by decide) (by decide)).1]
    rfl
  · rw [(hb.2 (by decide)).1]
    rfl

theorem sameRegistries_nodup {m1 m2 : Model} (hs : SameRegistries m1 m2)
    (h : RegistryNodup m2) : RegistryNodup m1 := by
  obtain ⟨ha, hb, hc⟩ := hs
  exact ⟨ha ▸ h.1, hb ▸ h.2.1, hc ▸ h.2.2⟩

theorem add_mechanism_one_registries (m : Model) (c v : String) :
    SameRegistries (m.add_mechanism_one c v).1 m := by
  unfold Model.add_mechanism_one
  split
  · exact ⟨rfl, rfl, rfl⟩
  · split
    · exact ⟨rfl, rfl, rfl⟩
    · exact ⟨rfl, rfl, rfl⟩

theorem add_mechanisms_go_registries (c : String) :
    ∀ (vs : List String) (m : Model), SameRegistries (Model.add_mechanisms.go c m vs).1 m := by
  intro vs
  induction vs with
  | nil => intro m; exact ⟨rfl, rfl, rfl⟩
  | cons v rest ih =>
    intro m
    show SameRegistries (match m.add_mechanism_one c v with
      | (m1, none) => Model.add_mechanisms.go c m1 rest
      | (m1, some e) => (m1, some e)).1 m
    cases he : m.add_mechanism_one c v with
    | mk m1 err =>
      have hsame : SameRegistries m1 m := by
        have := add_mechanism_one_registries m c v
        rw [he] at this
        exact this
      cases err with
      | none =>
        obtain ⟨h1, h2, h3⟩ := ih m1
        obtain ⟨g1, g2, g3⟩ := hsame
        exact ⟨h1.trans g1, h2.trans g2, h3.trans g3⟩
      | some e => exact hsame

theorem add_mechanisms_registries (m : Model) (c : String) (vs : List String) :
    SameRegistries (m.add_mechanisms c vs).1 m := by
  unfold Model.add_mechanisms
  split
  · exact ⟨rfl, rfl, rfl⟩
  · exact add_mechanisms_go_registries c vs m

theorem remove_mechanisms_go_registries (c : String) :
    ∀ (vs : List String) (m : Model), SameRegistries (Model.remove_mechanisms.go c m vs).1 m := by
  intro vs
  induction vs with
  | nil => intro m; exact ⟨rfl, rfl, rfl⟩
  | cons v rest ih =>
    intro m
    show SameRegistries (match lookupD m.mechanisms c with
      | none => (m, some (Err.keyError c))
      | some l => Model.remove_mechanisms.go c
          { m with mechanisms := setD m.mechanisms c (l.erase v) } rest).1 m
    cases lookupD m.mechanisms c with
    | none => exact ⟨rfl, rfl, rfl⟩
    | some l => exact ih _

theorem remove_mechanisms_registries (m : Model) (c : String) (vs : List String) :
    SameRegistries (m.remove_mechanisms c vs).1 m := by
  unfold Model.remove_mechanisms
  split
  · exact ⟨rfl, rfl, rfl⟩
  · exact remove_mechanisms_go_registries c vs m

theorem add_intention_one_registries (m : Model) (a c : String) :
    SameRegistries (m.add_intention_one a c).1 m := by
  unfold Model.add_intention_one
  split
  · exact ⟨rfl, rfl, rfl⟩
  · split
    · exact ⟨rfl, rfl, rfl⟩
    · exact ⟨rfl, rfl, rfl⟩

theorem add_intentions_go_registries (a : String) :
    ∀ (cs : List String) (m : Model), SameRegistries (Model.add_intentions.go a m cs).1 m := by
  intro cs
  induction cs with
  | nil => intro m; exact ⟨rfl, rfl, rfl⟩
  | cons c rest ih =>
    intro m
    show SameRegistries (match m.add_intention_one a c with
      | (m1, none) => Model.add_intentions.go a m1 rest
      | (m1, some e) => (m1, some e)).1 m
    cases he : m.add_intention_one a c with
    | mk m1 err =>
      have hsame : SameRegistries m1 m := by
        have := add_intention_one_registries m a c
        rw [he] at this
        exact this
      cases err with
      | none =>
        obtain ⟨h1, h2, h3⟩ := ih m1
        obtain ⟨g1, g2, g3⟩ := hsame
        exact ⟨h1.trans g1, h2.trans g2, h3.trans g3⟩
      | some e => exact hsame

theorem add_intentions_registries (m : Model) (a : String) (cs : List String) :
    SameRegistries (m.add_intentions a cs).1 m := by
  unfold Model.add_intentions
  split
  · exact ⟨rfl, rfl, rfl⟩
  · exact add_intentions_go_registries a cs m

theorem remove_intention_one_registries (m : Model) (a c : String) :
    SameRegistries (m.remove_intention_one a c).1 m := by
  unfold Model.remove_intention_one
  split
  · exact ⟨rfl, rfl, rfl⟩
  · split
    · exact ⟨rfl, rfl, rfl⟩
    · exact ⟨rfl, rfl, rfl⟩

theorem remove_intentions_go_registries (a : String) :
    ∀ (cs : List String) (m : Model), SameRegistries (Model.remove_intentions.go a m cs).1 m := by
  intro cs
  induction cs with
  | nil => intro m; exact ⟨rfl, rfl, rfl⟩
  | cons c rest ih =>
    intro m
    show SameRegistries (match m.remove_intention_one a c with
      | (m1, none) => Model.remove_intentions.go a m1 rest
      | (m1, some e) => (m1, some e)).1 m
    cases he : m.remove_intention_one a c with
    | mk m1 err =>
      have hsame : SameRegistries m1 m := by
        have := remove_intention_one_registries m a c
        rw [he] at this
        exact this
      cases err with
      | none =>
        obtain ⟨h1, h2, h3⟩ := ih m1
        obtain ⟨g1, g2, g3⟩ := hsame
        exact ⟨h1.trans g1, h2.trans g2, h3.trans g3⟩
      | some e => exact hsame

theorem remove_intentions_registries (m : Model) (a : String) (cs : List String) :
    SameRegistries (m.remove_intentions a cs).1 m := by
  unfold Model.remove_intentions
  split
  · exact ⟨rfl, rfl, rfl⟩
  · exact remove_intentions_go_registries a cs m

theorem set_utility_registries (m : Model) (c : String) (v : Int) (aff : Bool) :
    SameRegistries (m.set_utility c v aff).1 m := by
  unfold Model.set_utility
  split
  · exact ⟨rfl, rfl, rfl⟩
  · exact ⟨rfl, rfl, rfl⟩

theorem remove_utility_registries (m : Model) (c : String) (aff : Bool) :
    SameRegistries (m.remove_utility c aff) m := by
  unfold Model.remove_utility
  dsimp only
  split <;> split <;> exact ⟨rfl, rfl, rfl⟩

theorem registryNodup_add_action_one (m : Model) (a : String) (h : RegistryNodup m) :
    RegistryNodup (m.add_action_one a) := by
  obtain ⟨h1, h2, h3⟩ := h
  unfold Model.add_action_one
  by_cases ha : a ∈ m.actions
  · rw [if_pos (by simpa using ha)]
    exact ⟨h1, h2, h3⟩
  · rw [if_neg (by simpa using ha)]
    exact ⟨by simp [List.nodup_append, h1, ha], h2, h3⟩

theorem registryNodup_remove_action_one (m : Model) (a : String) (h : RegistryNodup m) :
    RegistryNodup (m.remove_action_one a).1 := by
  obtain ⟨h1, h2, h3⟩ := h
  unfold Model.remove_action_one
  dsimp only
  split
  · split
    · exact ⟨h1.erase a, h2, h3⟩
    · exact ⟨h1.erase a, h2, h3⟩
  · exact ⟨h1, h2, h3⟩

theorem registryNodup_remove_actions (ns : List String) :
    ∀ m : Model, RegistryNodup m → RegistryNodup (m.remove_actions ns).1 := by
  induction ns with
  | nil => intro m h; exact h
  | cons a rest ih =>
    intro m h
    show RegistryNodup (match m.remove_action_one a with
      | (m1, none) => m1.remove_actions rest
      | (m1, some e) => (m1, some e)).1
    cases he : m.remove_action_one a with
    | mk m1 err =>
      have h1 : RegistryNodup m1 := by
        have := registryNodup_remove_action_one m a h
        rw [he] at this
        exact this
      cases err with
      | none => exact ih m1 h1
      | some e => exact h1

/-- One public non-rename call keeps every registry list duplicate-free. -/
theorem registryNodup_op (m : Model) (op : Op) (h : RegistryNodup m) :
    RegistryNodup (Op.apply m op) := by
  obtain ⟨h1, h2, h3⟩ := h
  cases op with
  | addActions ns =>
    exact foldl_preserve registryNodup_add_action_one ns m ⟨h1, h2, h3⟩
  | removeActions ns =>
    exact registryNodup_remove_actions ns m ⟨h1, h2, h3⟩
  | addBackground ns =>
    refine foldl_preserve (fun m2 b hm => ?_) ns m ⟨h1, h2, h3⟩
    exact ⟨hm.1, append_if_new_nodup hm.2.1 b, hm.2.2⟩
  | removeBackground ns =>
    refine foldl_preserve (fun m2 b hm => ?_) ns m ⟨h1, h2, h3⟩
    unfold Model.remove_background_one
    split
    · exact ⟨hm.1, hm.2.1.erase b, hm.2.2⟩
    · exact hm
  | addConsequences ns =>
    refine foldl_preserve (fun m2 c hm => ?_) ns m ⟨h1, h2, h3⟩
    exact ⟨hm.1, hm.2.1, append_if_new_nodup hm.2.2 c⟩
  | removeConsequences ns =>
    refine foldl_preserve (fun m2 c hm => ?_) ns m ⟨h1, h2, h3⟩
    unfold Model.remove_consequence_one
    split
    · exact ⟨hm.1, hm.2.1, hm.2.2.erase c⟩
    · exact hm
  | addMechanisms c vs =>
    exact sameRegistries_nodup (add_mechanisms_registries m c vs) ⟨h1, h2, h3⟩
  | removeMechanisms c vs =>
    exact sameRegistries_nodup (remove_mechanisms_registries m c vs) ⟨h1, h2, h3⟩
  | setUtility c v aff =>
    exact sameRegistries_nodup (set_utility_registries m c v aff) ⟨h1, h2, h3⟩
  | removeUtility c aff =>
    exact sameRegistries_nodup (remove_utility_registries m c aff) ⟨h1, h2, h3⟩
  | addIntentions a cs =>
    exact sameRegistries_nodup (add_intentions_registries m a cs) ⟨h1, h2, h3⟩
  | removeIntentions a cs =>
    exact sameRegistries_nodup (remove_intentions_registries m a cs) ⟨h1, h2, h3⟩
  | setDescription d => exact ⟨h1, h2, h3⟩
  | reset => exact ⟨List.nodup_nil, List.nodup_nil, List.nodup_nil⟩

/-- C5 amended: the registry does not enforce cross-kind disjointness (a
name can be registered under two kinds at once, see the counterexample);
what every sequence of public non-rename calls starting from a fresh model
does maintain is uniqueness WITHIN each kind: each of the three registry
lists stays duplicate-free. -/
theorem registries_nodup_after_ops (d : String) (ops : List Op) :
    RegistryNodup ((Model.init d).run ops) := by
  unfold Model.run
  exact foldl_preserve registryNodup_op ops (Model.init d)
    ⟨List.nodup_nil, List.nodup_nil, List.nodup_nil⟩

/-- C5 counterexample: two public calls starting from a fresh model
register the same name X both as an action and as a consequence, so the
registry sets are not pairwise disjoint. -/
theorem cross_kind_disjointness_fails :
    "X" ∈ crossModel.actions ∧ "X" ∈ crossModel.consequences := by
  decide

/-- C10: on a model where X is registered both as an action and as a
consequence (reachable by two public calls), remove_intentions X X passes
both verification checks and removes the action name X from its own
intention list, leaving it empty.  The code contradicts its own docstring,
which states the action itself can never be removed from its intentions. -/
theorem remove_intentions_can_remove_own_name :
    lookupD crossModel.intentions "X" = some ["X"] ∧
    (crossModel.remove_intentions "X" ["X"]).2 = none ∧
    lookupD (crossModel.remove_intentions "X" ["X"]).1.intentions "X" = some [] := by
  decide

end Hera
